import Mathlib

/-!
Verification of the core algorithms of the nexus-ai note-taking application:
the viewport pan/zoom transform, structural table insertion, the slash-command
document mutation, the dictation retry state machine, the editor's AI request
handler, the mind-map layout engine (seeding and force relaxation), and the
markup round-trip contract.

Each model below is a shallow embedding of the corresponding TypeScript
source (components/VisualizationModal.tsx, components/Editor.tsx,
components/TableGeneratorModal.tsx, components/AIAssistant.tsx,
hooks/useSpeechRecognition.ts).  Machine floats are modelled as real numbers,
DOM block lists as Lean lists, and fallible service calls as Except values.
-/

namespace Nexus

/-! ## Viewport transform (VisualizationModal.tsx, handleWheel)

State: scale factor and 2D translation.  A canvas point p renders at screen
position translation + scale * p (CSS translate then scale). -/

structure Transform where
  scale : ℝ
  x : ℝ
  y : ℝ

/-- Embedding of handleWheel: nextScale = scale - deltaY * 0.001, clamped to
[0.2, 2]; translation recomputed so the pointer-anchored point stays put. -/
noncomputable def handleWheel (t : Transform) (deltaY mouseX mouseY : ℝ) : Transform :=
  let nextScale := t.scale - deltaY * 0.001
  let scale := max 0.2 (min nextScale 2)
  { scale := scale
    x := mouseX - (mouseX - t.x) * (scale / t.scale)
    y := mouseY - (mouseY - t.y) * (scale / t.scale) }

/-- Screen position of a canvas-space point under a transform. -/
noncomputable def toScreenX (t : Transform) (wx : ℝ) : ℝ := t.x + t.scale * wx

/-- Screen position of a canvas-space point under a transform (y axis). -/
noncomputable def toScreenY (t : Transform) (wy : ℝ) : ℝ := t.y + t.scale * wy

/-! ## Table creation (Editor.tsx, handleCreateTable; TableGeneratorModal.tsx)

handleCreateTable builds a fragment holding one table (a header row of
"Header i" cells and `rows` body rows of empty cells) followed by one empty
paragraph, then splices the fragment into the block list.  The JS loops
`for (i = 0; i < n; i++)` run max(0, n) times for an integer bound n. -/

/-- A node of the fragment produced by handleCreateTable: the table itself
(header-cell texts and body-row cell texts), or the trailing empty paragraph. -/
inductive TNode where
  | table (header : List String) (body : List (List String))
  | emptyPara
deriving DecidableEq, Repr

/-- Header cells: `cols` cells labeled "Header 1" .. "Header cols". -/
def tableHeader (cols : Int) : List String :=
  (List.range cols.toNat).map (fun i => "Header " ++ toString (i + 1))

/-- Body: `rows` rows, each of `cols` cells whose text content is empty
(the source puts a lone br element in each cell). -/
def tableBody (rows cols : Int) : List (List String) :=
  (List.range rows.toNat).map (fun _ => (List.range cols.toNat).map (fun _ => ""))

/-- The document fragment built by handleCreateTable: the table followed by
one trailing empty paragraph. -/
def tableFragment (rows cols : Int) : List TNode :=
  [TNode.table (tableHeader cols) (tableBody rows cols), TNode.emptyPara]

/-- Embedding of the TableGeneratorModal number-input onChange handler:
`Math.max(1, parseInt(value, 10) || 1)`.  `none` models an unparsable value
(parseInt returned NaN); a parsed 0 is falsy and also becomes 1. -/
def sanitizeDim (v : Option Int) : Int :=
  max 1 (match v with
         | none => 1
         | some n => if n = 0 then 1 else n)

/-- Embedding of the modal submit guard: onCreateTable is invoked only when
rows > 0 and cols > 0. -/
def submitAllowed (rows cols : Int) : Bool :=
  decide (0 < rows) && decide (0 < cols)

/-! ## Dictation retry state machine (hooks/useSpeechRecognition.ts)

State observed by the recognition event handlers: the intentional-listening
flag, the consecutive-network-error counter, the listening flag surfaced to
the UI, the surfaced error message, and the delay of a scheduled restart
timer (milliseconds), if any. -/

structure SttState where
  intent : Bool
  retryCount : ℕ
  isListening : Bool
  errorMsg : Option String
  pendingRetryMs : Option ℕ
deriving DecidableEq, Repr

/-- The retry bound from the source (MAX_RETRIES). -/
def MAX_RETRIES : ℕ := 3

/-- Embedding of stopListening: clears the intent flag, cancels any pending
retry timer, marks not listening, and sets the final error if one is given. -/
def stopListening (fin : Option String) (s : SttState) : SttState :=
  { s with intent := false
           pendingRetryMs := none
           isListening := false
           errorMsg := match fin with
                       | some m => some m
                       | none => s.errorMsg }

/-- Embedding of recognition.onerror.  A network error while intentionally
listening increments the counter and, within the retry budget, schedules a
restart after 2^(retryCount-1) seconds (the counter already incremented);
past the budget the session stops with a terminal message.  Other codes map
to their messages; an aborted event while not intending to listen is an
expected stop and changes nothing. -/
def onError (code : String) (s : SttState) : SttState :=
  if code = "network" ∧ s.intent = true then
    if s.retryCount < MAX_RETRIES then
      { s with retryCount := s.retryCount + 1
               errorMsg := some "Connection unstable. Retrying..."
               pendingRetryMs := some (2 ^ s.retryCount * 1000) }
    else
      stopListening (some "Network error. Please check your connection and try again.") s
  else if code = "no-speech" then
    stopListening (some "No speech was detected. Please try again.") s
  else if code = "not-allowed" ∨ code = "service-not-allowed" then
    stopListening (some "Microphone access denied. Please allow it in browser settings.") s
  else if code = "aborted" then
    if s.intent = true then
      stopListening (some "Dictation was unexpectedly interrupted.") s
    else s
  else
    stopListening (some "An unknown error occurred.") s

/-- Embedding of recognition.onresult: a successful recognition result resets
the consecutive-error counter and clears the retrying message. -/
def onResult (s : SttState) : SttState :=
  { s with retryCount := 0, errorMsg := none }

/-! ## Editor AI request handler (Editor.tsx handleAiRequest; AIAssistant.tsx)

The handler closes the assistant, awaits the service, and on success splices
the result at the saved range (or appends).  On failure the catch block only
logs to the console; the finally block clears the selection state.  The
saved range is modelled as a (start, length) span of the note content; the
service outcome as an Except value. -/

structure AiEditorState where
  content : String
  assistantOpen : Bool
  assistantError : Option String
  selectedText : String
  savedRange : Option (ℕ × ℕ)
deriving DecidableEq, Repr

/-- Replace the span [start, start+len) of a string (range.deleteContents
followed by insertNode of the result text). -/
def replaceSpan (s : String) (start len : ℕ) (t : String) : String :=
  ⟨(s.data.take start) ++ t.data ++ (s.data.drop (start + len))⟩

/-- Embedding of handleAiRequest applied to an already-resolved service
outcome.  The assistant is closed before the call; the catch branch performs
no state change beyond the finally cleanup. -/
def handleAiRequest (st : AiEditorState) (outcome : Except String String) : AiEditorState :=
  let st0 := { st with assistantOpen := false }
  match outcome with
  | Except.ok result =>
    let st1 :=
      match st0.savedRange with
      | some r => { st0 with content := replaceSpan st0.content r.1 r.2 result }
      | none => { st0 with content := st0.content ++ result }
    { st1 with selectedText := "", savedRange := none }
  | Except.error _ =>
    { st0 with selectedText := "", savedRange := none }

/-- Embedding of AIAssistant.handleAction: it clears its local error display,
then awaits onSubmit (handleAiRequest).  Because handleAiRequest catches all
service errors internally, the awaited promise always resolves and the
assistant's catch branch never runs, so its error display stays empty. -/
def handleAction (st : AiEditorState) (outcome : Except String String) : AiEditorState :=
  handleAiRequest { st with assistantError := none } outcome

/-! ## Structural slash commands (Editor.tsx handleCommandSelect;
SlashCommandMenu.tsx command vocabulary)

The editor document is modelled as a list of top-level blocks.  Existing
blocks carry their text content; a command that creates an element inserts a
fresh structural element (heading/blockquote tag with a br, list with one
item, todo list with one checkbox item, or pre/code block). -/

/-- Tag commands of the vocabulary (commands carrying a `tag` field). -/
inductive CmdTag where
  | h1 | h2 | h3 | blockquote
deriving DecidableEq, Repr

/-- The fixed command vocabulary (SlashCommandMenu.tsx ALL_COMMANDS). -/
inductive Command where
  | askAI
  | bulletedList
  | numberedList
  | todoList
  | codeBlock
  | table
  | tag (t : CmdTag)
deriving DecidableEq, Repr

/-- A block of the editor document: an existing block with its text content,
or a structural element freshly created by a command. -/
inductive Blk where
  | txt (s : String)
  | tagEl (t : CmdTag)
  | bulletedListEl
  | numberedListEl
  | todoListEl
  | codeBlockEl
deriving DecidableEq, Repr

/-- Text content of a block; the created elements contain only a br (or a
checkbox and a non-breaking space) and no text. -/
def blkText : Blk → String
  | Blk.txt s => s
  | Blk.tagEl _ => ""
  | Blk.bulletedListEl => ""
  | Blk.numberedListEl => ""
  | Blk.todoListEl => " "
  | Blk.codeBlockEl => ""

/-- The element a command creates, if any.  askAI opens the assistant and
table opens the dimensions modal; neither creates an element directly. -/
def createdElement : Command → Option Blk
  | Command.askAI => none
  | Command.bulletedList => some Blk.bulletedListEl
  | Command.numberedList => some Blk.numberedListEl
  | Command.todoList => some Blk.todoListEl
  | Command.codeBlock => some Blk.codeBlockEl
  | Command.table => none
  | Command.tag t => some (Blk.tagEl t)

/-- Whitespace-trimming of a string (String.prototype.trim), written on the
underlying character list. -/
def strTrim (s : String) : String :=
  ⟨((s.data.dropWhile Char.isWhitespace).reverse.dropWhile Char.isWhitespace).reverse⟩

/-- Prefix test on strings (String.prototype.startsWith), written on the
underlying character list. -/
def strStarts (s p : String) : Bool :=
  p.data.isPrefixOf s.data

/-- Embedding of the trigger-text removal in handleCommandSelect: if the
trimmed text of the cursor block starts with "/" followed by the menu query,
the block is cleared. -/
def stripTrigger (doc : List Blk) (i : ℕ) (query : String) : List Blk :=
  match doc.get? i with
  | some b =>
    if strStarts (strTrim (blkText b)) ("/" ++ query) then doc.set i (Blk.txt "") else doc
  | none => doc

/-- Embedding of handleCommandSelect restricted to its document mutation:
strip the trigger text, test whether the cursor block is textually empty,
then replace the empty block with the created element or insert the element
immediately after a non-empty block.  When the cursor is not inside any
top-level block the element is appended at the end (source fallback). -/
def applyCommandSelect (doc : List Blk) (i : ℕ) (query : String) (c : Command) : List Blk :=
  match createdElement c with
  | none => stripTrigger doc i query
  | some e =>
    match (stripTrigger doc i query).get? i with
    | some b =>
      if strTrim (blkText b) = "" then (stripTrigger doc i query).set i e
      else (stripTrigger doc i query).insertIdx (i + 1) e
    | none => stripTrigger doc i query ++ [e]

end Nexus

namespace Nexus

/-! ## Mind-map layout engine (VisualizationModal.tsx calculateLayout)

Layout constants CENTER_X/CENTER_Y = 500, MAIN_RADIUS = 300,
CHILD_RADIUS = 100.  Phase 1 seeds nodes radially; phase 2 runs 150
iterations of pairwise repulsion followed by parent attraction. -/

/-- A child (level-2) node of the mind-map graph. -/
structure MChild where
  id : String
  label : String

/-- A main-topic (level-1) node of the mind-map graph with its children. -/
structure MNode where
  id : String
  label : String
  children : List MChild

/-- The mind-map graph: central topic plus main topics. -/
structure MindMapData where
  centralTopic : String
  nodes : List MNode

/-- Layout node as in the source: estimated box, position, hierarchy level,
parent reference and fixed flag. -/
structure LNode where
  id : String
  label : String
  width : ℝ
  height : ℝ
  x : ℝ
  y : ℝ
  level : ℕ
  parentId : Option String
  isFixed : Bool

/-- Fallback node used for list indexing. -/
def dummyNode : LNode :=
  { id := "", label := "", width := 0, height := 0, x := 0, y := 0,
    level := 0, parentId := none, isFixed := false }

def CENTER_X : ℝ := 500
def CENTER_Y : ℝ := 500
def MAIN_RADIUS : ℝ := 300
def CHILD_RADIUS : ℝ := 100

/-- Embedding of estimateWidth: level-dependent padding and character width,
capped at 180. -/
noncomputable def estimateWidth (label : String) (level : ℕ) : ℝ :=
  min 180 ((if 1 < level then (24 : ℝ) else 40) +
           (label.length : ℝ) * (if 1 < level then (7 : ℝ) else 9))

/-- JS Math.atan2 on real numbers. -/
noncomputable def atan2 (y x : ℝ) : ℝ :=
  if 0 < x then Real.arctan (y / x)
  else if x < 0 then
    (if 0 ≤ y then Real.arctan (y / x) + Real.pi else Real.arctan (y / x) - Real.pi)
  else
    (if 0 < y then Real.pi / 2 else if y < 0 then -(Real.pi / 2) else 0)

/-- The central node, fixed at the canvas center. -/
noncomputable def centralNode (d : MindMapData) : LNode :=
  { id := "central", label := d.centralTopic,
    width := estimateWidth d.centralTopic 0, height := 60,
    x := CENTER_X, y := CENTER_Y, level := 0, parentId := none, isFixed := true }

/-- Seeded main-topic node i of n: on the circle of radius MAIN_RADIUS at
angle (i / n) * 2π. -/
noncomputable def mainNode (i n : ℕ) (m : MNode) : LNode :=
  { id := m.id, label := m.label, width := estimateWidth m.label 1, height := 50,
    x := CENTER_X + MAIN_RADIUS * Real.cos (((i : ℝ) / (n : ℝ)) * (2 * Real.pi)),
    y := CENTER_Y + MAIN_RADIUS * Real.sin (((i : ℝ) / (n : ℝ)) * (2 * Real.pi)),
    level := 1, parentId := some "central", isFixed := false }

/-- The seeding angle for child j of n children: the angle of the most
recently pushed node (prev) from the canvas center, plus
(j - (n-1)/2) * 0.5. -/
noncomputable def childAngle (prev : LNode) (n j : ℕ) : ℝ :=
  atan2 (prev.y - CENTER_Y) (prev.x - CENTER_X) +
    ((j : ℝ) - ((n : ℝ) - 1) / 2) * 0.5

/-- Seeded child node: placed at distance CHILD_RADIUS from the most recently
pushed node (the source reads layoutNodes[layoutNodes.length - 1], which is
the main topic only for the first child and the previous child otherwise). -/
noncomputable def childNode (prev : LNode) (c : MChild) (pid : String) (n j : ℕ) : LNode :=
  { id := c.id, label := c.label, width := estimateWidth c.label 2, height := 40,
    x := prev.x + CHILD_RADIUS * Real.cos (childAngle prev n j),
    y := prev.y + CHILD_RADIUS * Real.sin (childAngle prev n j),
    level := 2, parentId := some pid, isFixed := false }

/-- Seed the successive children of one main topic, threading the previously
pushed node through the chain. -/
noncomputable def seedChildList (prev : LNode) (pid : String) (n j : ℕ) :
    List MChild → List LNode
  | [] => []
  | c :: cs =>
    childNode prev c pid n j :: seedChildList (childNode prev c pid n j) pid n (j + 1) cs

/-- Phase 1 (seeding): central node, then for each main topic its seeded node
followed by its seeded children. -/
noncomputable def seedNodes (d : MindMapData) : List LNode :=
  centralNode d ::
    d.nodes.enum.flatMap (fun p =>
      mainNode p.1 d.nodes.length p.2 ::
        seedChildList (mainNode p.1 d.nodes.length p.2) p.2.id p.2.children.length 0
          p.2.children)

/-- Minimum separation for a pair: half-widths plus a 15px margin between two
child-level nodes, 30px otherwise. -/
noncomputable def minSeparation (a b : LNode) : ℝ :=
  a.width / 2 + b.width / 2 + (if a.level = 2 ∧ b.level = 2 then 15 else 30)

/-- Move the node at index i to an absolute position, unless its fixed flag
is set (the guard both updates in the source carry). -/
noncomputable def moveNode (ns : List LNode) (i : ℕ) (nx ny : ℝ) : List LNode :=
  if (ns.getD i dummyNode).isFixed then ns
  else ns.set i { ns.getD i dummyNode with x := nx, y := ny }

/-- Repulsion update for an ordered pair (j, k) with j < k (the only shape
the pair loop produces): push the two nodes apart when their distance is
below the minimum separation, with the zero-distance guard substituting 0.1;
fixed nodes are not moved. -/
noncomputable def repulsePair (ns : List LNode) (j k : ℕ) : List LNode :=
  let a := ns.getD j dummyNode
  let b := ns.getD k dummyNode
  let dx := a.x - b.x
  let dy := a.y - b.y
  let dist0 := Real.sqrt (dx * dx + dy * dy)
  let dist := if dist0 = 0 then 0.1 else dist0
  if dist < minSeparation a b then
    let force := 0.8 * (minSeparation a b - dist) / dist
    moveNode (moveNode ns j (a.x + dx * force) (a.y + dy * force)) k
      (b.x - dx * force) (b.y - dy * force)
  else ns

/-- All index pairs (j, k) with j < k < n, in the source's loop order. -/
def pairIndices (n : ℕ) : List (ℕ × ℕ) :=
  (List.range n).flatMap (fun j => ((List.range n).filter (fun k => j < k)).map (fun k => (j, k)))

/-- One repulsion sweep over all node pairs. -/
noncomputable def repulsionPass (ns : List LNode) : List LNode :=
  (pairIndices ns.length).foldl (fun acc p => repulsePair acc p.1 p.2) ns

/-- Phase-1 target radius for a node's level. -/
noncomputable def desiredDistance (nd : LNode) : ℝ :=
  if nd.level = 1 then MAIN_RADIUS else CHILD_RADIUS

/-- Attraction update for the node at index i: when farther from its parent
than the target radius, pull it toward the parent; fixed nodes do not move. -/
noncomputable def attractAt (ns : List LNode) (i : ℕ) : List LNode :=
  let nd := ns.getD i dummyNode
  match nd.parentId with
  | none => ns
  | some pid =>
    match ns.find? (fun p => p.id = pid) with
    | none => ns
    | some parent =>
      let dx := nd.x - parent.x
      let dy := nd.y - parent.y
      let dist := Real.sqrt (dx * dx + dy * dy)
      if desiredDistance nd < dist then
        let force := 0.05 * (dist - desiredDistance nd)
        moveNode ns i (nd.x - dx / dist * force) (nd.y - dy / dist * force)
      else ns

/-- One attraction sweep over all nodes. -/
noncomputable def attractionPass (ns : List LNode) : List LNode :=
  (List.range ns.length).foldl attractAt ns

/-- One relaxation iteration: repulsion sweep then attraction sweep. -/
noncomputable def relaxStep (ns : List LNode) : List LNode :=
  attractionPass (repulsionPass ns)

/-- Embedding of calculateLayout: seeding followed by 150 relaxation
iterations. -/
noncomputable def calculateLayout (d : MindMapData) : List LNode :=
  relaxStep^[150] (seedNodes d)

/-- Position of the k-th seeded node of a graph. -/
noncomputable def seededPos (d : MindMapData) (k : ℕ) : ℝ × ℝ :=
  (((seedNodes d).getD k dummyNode).x, ((seedNodes d).getD k dummyNode).y)

/-- Squared euclidean distance between two positions. -/
noncomputable def sqDist (p q : ℝ × ℝ) : ℝ :=
  (p.1 - q.1) ^ 2 + (p.2 - q.2) ^ 2

/-- Concrete graph used to test the seeding phase: one main topic with two
children. -/
def exGraph : MindMapData :=
  { centralTopic := "c",
    nodes := [{ id := "m", label := "m",
                children := [{ id := "a", label := "a" }, { id := "b", label := "b" }] }] }

end Nexus

namespace Nexus.Markdown

/-!
## Markup converter (round-trip contract)

Modelled from the spec: the markup parse/render pair itself lives in the
external marked and turndown libraries (plus the Editor's todo rule and
checklist post-processing), whose sources are not part of this repository;
only their configuration and the todo rule are.  Following the spec, a
markup text is its list of lines, the parse direction recognizes headings by
leading marker count, bulleted list items, checklist items (the "- [x]" /
"- [ ]" forms of the Editor's todo rule, preserving the checked state),
blockquotes, fenced code blocks and pipe-delimited table rows, and the
render direction serializes each block back to its marker form.
-/

/-- A line of markup text. -/
abbrev Line := List Char

/-- The backquote character (code 96). -/
def bq : Char := Char.ofNat 96

/-- A code fence line. -/
def fenceLine : Line := [bq, bq, bq]

/-- A block of the parsed document tree. -/
inductive MBlock where
  | heading (lvl : ℕ) (t : Line)
  | bullet (t : Line)
  | check (done : Bool) (t : Line)
  | quote (t : Line)
  | codeBlock (ls : List Line)
  | tableRow (cells : List Line)
  | para (t : Line)
deriving DecidableEq, Repr

/-- Split a line at every occurrence of a character. -/
def splitOnChar (c : Char) : Line → List Line
  | [] => [[]]
  | a :: as =>
    if a = c then [] :: splitOnChar c as
    else
      match splitOnChar c as with
      | [] => [[a]]
      | b :: bs => (a :: b) :: bs

/-- Join table cells with pipe separators. -/
def joinCells : List Line → Line
  | [] => []
  | [c] => c
  | c :: c2 :: cs => c ++ '|' :: joinCells (c2 :: cs)

/-- Serialize one block to its lines.  The checklist rule is the Editor's
todo rule: a checked item renders as "- [x] ", an unchecked one as "- [ ] ". -/
def renderBlock : MBlock → List Line
  | MBlock.heading lvl t => [List.replicate lvl '#' ++ ' ' :: t]
  | MBlock.bullet t => ['-' :: ' ' :: t]
  | MBlock.check true t => ['-' :: ' ' :: '[' :: 'x' :: ']' :: ' ' :: t]
  | MBlock.check false t => ['-' :: ' ' :: '[' :: ' ' :: ']' :: ' ' :: t]
  | MBlock.quote t => ['>' :: ' ' :: t]
  | MBlock.codeBlock ls => fenceLine :: ls ++ [fenceLine]
  | MBlock.tableRow cs => ['|' :: joinCells cs ++ ['|']]
  | MBlock.para t => [t]

/-- Serialize a document tree to markup lines. -/
def renderDoc (bs : List MBlock) : List Line := bs.flatMap renderBlock

/-- Classify one markup line (every line except fence handling, which is done
by the caller).  Marker prefixes are tested from the most specific down. -/
def classifyLine (l : Line) : MBlock :=
  if ['#', '#', '#', '#', '#', '#', ' '].isPrefixOf l then MBlock.heading 6 (l.drop 7)
  else if ['#', '#', '#', '#', '#', ' '].isPrefixOf l then MBlock.heading 5 (l.drop 6)
  else if ['#', '#', '#', '#', ' '].isPrefixOf l then MBlock.heading 4 (l.drop 5)
  else if ['#', '#', '#', ' '].isPrefixOf l then MBlock.heading 3 (l.drop 4)
  else if ['#', '#', ' '].isPrefixOf l then MBlock.heading 2 (l.drop 3)
  else if ['#', ' '].isPrefixOf l then MBlock.heading 1 (l.drop 2)
  else if ['-', ' ', '[', 'x', ']', ' '].isPrefixOf l then MBlock.check true (l.drop 6)
  else if ['-', ' ', '[', ' ', ']', ' '].isPrefixOf l then MBlock.check false (l.drop 6)
  else if ['-', ' '].isPrefixOf l then MBlock.bullet (l.drop 2)
  else if ['>', ' '].isPrefixOf l then MBlock.quote (l.drop 2)
  else if l.head? = some '|' ∧ l.getLast? = some '|' ∧ 2 ≤ l.length then
    MBlock.tableRow (((splitOnChar '|' l).drop 1).dropLast)
  else MBlock.para l

/-- Parse markup lines into a document tree; a fence line opens a code block
that captures everything up to the next fence line. -/
def parseLines : List Line → List MBlock
  | [] => []
  | l :: rest =>
    if l = fenceLine then
      MBlock.codeBlock (rest.takeWhile (· ≠ fenceLine)) ::
        parseLines ((rest.dropWhile (· ≠ fenceLine)).drop 1)
    else
      classifyLine l :: parseLines rest
termination_by ls => ls.length
decreasing_by
  all_goals simp_wf
  have h2 : (List.dropWhile (fun x => !decide (x = fenceLine)) bs).length ≤ bs.length :=
    (List.dropWhile_sublist _).length_le
  omega

/-- Well-formedness of a block: exactly the shape invariants that the parse
direction guarantees, under which rendering is injectively parseable. -/
def WfB : MBlock → Prop
  | MBlock.heading lvl _ => 1 ≤ lvl ∧ lvl ≤ 6
  | MBlock.bullet t =>
      ¬ (['[', 'x', ']', ' '].isPrefixOf t) ∧ ¬ (['[', ' ', ']', ' '].isPrefixOf t)
  | MBlock.check _ _ => True
  | MBlock.quote _ => True
  | MBlock.codeBlock ls => fenceLine ∉ ls
  | MBlock.tableRow cs => cs ≠ [] ∧ ∀ c ∈ cs, '|' ∉ c
  | MBlock.para t => classifyLine t = MBlock.para t ∧ t ≠ fenceLine

end Nexus.Markdown

namespace Nexus

/-! ## Shape preservation for the relaxation (supporting relations)

A relaxation update may move a node, but every non-positional field is kept,
and a node whose fixed flag is set also keeps its position.  `Pres a b`
states this for one node, `PresL` index-wise for a node list. -/

/-- Node b agrees with node a on every non-positional field, and also on
position when a is fixed. -/
def Pres (a b : LNode) : Prop :=
  b.id = a.id ∧ b.label = a.label ∧ b.width = a.width ∧ b.height = a.height ∧
  b.level = a.level ∧ b.parentId = a.parentId ∧ b.isFixed = a.isFixed ∧
  (a.isFixed = true → b.x = a.x ∧ b.y = a.y)

/-- Index-wise shape preservation between two node lists of equal length. -/
def PresL (ns ns' : List LNode) : Prop :=
  ns'.length = ns.length ∧ ∀ i : ℕ, Pres (ns.getD i dummyNode) (ns'.getD i dummyNode)

end Nexus


/-! ## Theorems -/

namespace Nexus

/-! ### Generic list helpers -/

theorem set_eq_take_cons_drop {α : Type _} (l : List α) (i : ℕ) (a : α) (h : i < l.length) :
    l.set i a = l.take i ++ a :: l.drop (i + 1) := by
  induction l generalizing i with
  | nil => simp at h
  | cons x xs ih =>
    cases i with
    | zero => simp
    | succ n =>
      simp only [List.set_cons_succ, List.take_succ_cons, List.drop_succ_cons, List.cons_append]
      rw [ih n (by simpa using h)]

theorem insertIdx_eq_take_cons_drop {α : Type _} (l : List α) (i : ℕ) (a : α)
    (h : i ≤ l.length) :
    l.insertIdx i a = l.take i ++ a :: l.drop i := by
  induction l generalizing i with
  | nil =>
    have h0 : i = 0 := Nat.le_zero.mp h
    subst h0
    simp
  | cons x xs ih =>
    cases i with
    | zero => simp
    | succ n =>
      simp only [List.insertIdx_succ_cons, List.take_succ_cons, List.drop_succ_cons,
        List.cons_append]
      rw [ih n (by simpa using h)]

/-! ### C6: zoom-to-cursor invariant -/

/-- C6: for every transform with non-zero scale and every wheel event at
pointer (mouseX, mouseY), the canvas-space point that was under the pointer
before the zoom maps back to the pointer afterwards, whatever value the
clamped new scale takes. -/
theorem C6_zoom_to_cursor (t : Transform) (deltaY mouseX mouseY : ℝ)
    (h : t.scale ≠ 0) :
    toScreenX (handleWheel t deltaY mouseX mouseY) ((mouseX - t.x) / t.scale) = mouseX ∧
    toScreenY (handleWheel t deltaY mouseX mouseY) ((mouseY - t.y) / t.scale) = mouseY := by
  unfold toScreenX toScreenY handleWheel
  constructor <;> (field_simp; ring)

/-- Witness for C6 at a concrete transform and pointer. -/
theorem C6_zoom_to_cursor_witness :
    toScreenX (handleWheel ⟨1, 0, 0⟩ 0 5 7) ((5 - (0 : ℝ)) / 1) = 5 ∧
    toScreenY (handleWheel ⟨1, 0, 0⟩ 0 5 7) ((7 - (0 : ℝ)) / 1) = 7 :=
  C6_zoom_to_cursor ⟨1, 0, 0⟩ 0 5 7 one_ne_zero

/-! ### C5: layout determinism -/

/-- C5: the layout is a pure function of the graph; two runs on the identical
graph yield identical coordinates (the embedding is deterministic by
construction: the source uses no randomness and no wall clock). -/
theorem C5_layout_deterministic (d₁ d₂ : MindMapData) (h : d₁ = d₂) :
    calculateLayout d₁ = calculateLayout d₂ := by
  rw [h]

/-- Witness for C5 on the concrete example graph. -/
theorem C5_layout_deterministic_witness :
    calculateLayout exGraph = calculateLayout exGraph :=
  C5_layout_deterministic exGraph exGraph rfl

/-! ### C4: table dimension clamping -/

/-- C4 counterexample: handleCreateTable itself performs no clamping, so the
document mutation for rows = cols = 0 (a table with an empty header row and
no body rows) differs from the mutation for rows = cols = 1. -/
theorem C4_counterexample : tableFragment 0 0 ≠ tableFragment 1 1 := by
  decide

/-- C4 amended: the clamping lives in the table-generator modal, not in the
insertion routine.  The modal input handler maps every entered value to at
least 1 (non-positive and unparsable values become exactly 1), its submit
guard only fires for positive dimensions, and the insertion routine for
rows = cols = 0 produces a table with an empty header row and no body rows
(not the (1,1) table). -/
theorem C4_amended :
    (∀ v : Option Int, 1 ≤ sanitizeDim v) ∧
    (∀ n : Int, n ≤ 0 → sanitizeDim (some n) = 1) ∧
    (∀ rows cols : Int, submitAllowed rows cols = true → 1 ≤ rows ∧ 1 ≤ cols) ∧
    tableFragment 0 0 = [TNode.table [] [], TNode.emptyPara] := by
  refine ⟨fun v => le_max_left _ _, ?_, ?_, by decide⟩
  · intro n hn
    by_cases h0 : n = 0
    · simp [sanitizeDim, h0]
    · simp only [sanitizeDim, h0, if_false]
      omega
  · intro rows cols h
    simp only [submitAllowed, Bool.and_eq_true, decide_eq_true_eq] at h
    omega

/-- Witness for C4 amended at concrete inputs. -/
theorem C4_amended_witness :
    sanitizeDim (some (-5)) = 1 ∧ 1 ≤ sanitizeDim none :=
  ⟨C4_amended.2.1 (-5) (by norm_num), C4_amended.1 none⟩

/-! ### C10: table fragment shape -/

/-- C10: for rows ≥ 1 and cols ≥ 1 the created fragment is the table followed
by exactly one trailing empty paragraph; the header has cols cells labeled
"Header 1" .. "Header cols" and the body has rows rows of cols empty cells. -/
theorem C10_table_shape (rows cols : Int) (_hr : 1 ≤ rows) (_hc : 1 ≤ cols) :
    tableFragment rows cols =
      [TNode.table (tableHeader cols) (tableBody rows cols), TNode.emptyPara] ∧
    (tableHeader cols).length = cols.toNat ∧
    (∀ i : ℕ, i < cols.toNat →
      (tableHeader cols).getD i "" = "Header " ++ toString (i + 1)) ∧
    (tableBody rows cols).length = rows.toNat ∧
    (∀ r ∈ tableBody rows cols, r.length = cols.toNat ∧ ∀ c ∈ r, c = "") := by
  refine ⟨rfl, by simp [tableHeader], ?_, by simp [tableBody], ?_⟩
  · intro i hi
    simp [tableHeader, List.getD_eq_getElem?_getD, List.getElem?_map, List.getElem?_range, hi]
  · intro r hrm
    simp only [tableBody, List.mem_map] at hrm
    obtain ⟨j, _, rfl⟩ := hrm
    constructor
    · simp
    · intro c hcm
      simp only [List.mem_map] at hcm
      obtain ⟨k, _, rfl⟩ := hcm
      rfl

/-- Witness for C10 at rows = 3, cols = 4. -/
theorem C10_table_shape_witness :
    (tableHeader 4).length = (4 : Int).toNat ∧ (tableBody 3 4).length = (3 : Int).toNat :=
  ⟨(C10_table_shape 3 4 (by norm_num) (by norm_num)).2.1,
   (C10_table_shape 3 4 (by norm_num) (by norm_num)).2.2.2.1⟩

end Nexus

namespace Nexus

/-! ### C8: dictation retry behaviour -/

/-- C8: while intentionally listening, the k-th consecutive network error
(k ≤ 3, arriving with the counter at k - 1) schedules a restart after
2^(k-1) seconds (2^(k-1) * 1000 ms) and keeps the session alive with a
retrying message; a successful result resets the counter and clears the
message; a network error after the three retries are used up stops the
session terminally with a user-visible network error message. -/
theorem C8_dictation_retry :
    (∀ (s : SttState) (k : ℕ), s.intent = true → 1 ≤ k → k ≤ MAX_RETRIES →
      s.retryCount = k - 1 →
      (onError "network" s).retryCount = k ∧
      (onError "network" s).pendingRetryMs = some (2 ^ (k - 1) * 1000) ∧
      (onError "network" s).intent = true ∧
      (onError "network" s).isListening = s.isListening ∧
      (onError "network" s).errorMsg = some "Connection unstable. Retrying...") ∧
    (∀ s : SttState, (onResult s).retryCount = 0 ∧ (onResult s).errorMsg = none) ∧
    (∀ s : SttState, s.intent = true → s.retryCount = MAX_RETRIES →
      (onError "network" s).isListening = false ∧
      (onError "network" s).intent = false ∧
      (onError "network" s).pendingRetryMs = none ∧
      (onError "network" s).errorMsg =
        some "Network error. Please check your connection and try again.") := by
  refine ⟨?_, fun s => ⟨rfl, rfl⟩, ?_⟩
  · intro s k hi h1 h3 hrc
    have hk : k = s.retryCount + 1 := by omega
    subst hk
    have hlt : s.retryCount < MAX_RETRIES := by
      unfold MAX_RETRIES at h3 ⊢
      omega
    simp [onError, hi, hlt, Nat.add_sub_cancel]
  · intro s hi hrc
    have hnlt : ¬ s.retryCount < MAX_RETRIES := by omega
    simp [onError, hi, hnlt, stopListening]

/-- Witness for C8 at concrete states: a first network error with a fresh
counter, a reset, and a terminal fourth error. -/
theorem C8_dictation_retry_witness :
    (onError "network" ⟨true, 0, true, none, none⟩).pendingRetryMs = some 1000 ∧
    (onResult ⟨true, 2, true, none, none⟩).retryCount = 0 ∧
    (onError "network" ⟨true, 3, true, none, none⟩).intent = false :=
  ⟨(C8_dictation_retry.1 ⟨true, 0, true, none, none⟩ 1 rfl (by decide) (by decide) rfl).2.1,
   (C8_dictation_retry.2.1 ⟨true, 2, true, none, none⟩).1,
   (C8_dictation_retry.2.2 ⟨true, 3, true, none, none⟩ rfl rfl).2.1⟩

/-! ### C9: AI generation error path -/

/-- C9 (against the claim's second half): on a failed AI service call the
note content is indeed left untouched and the saved range is cleared, but no
user-visible error is surfaced: the assistant was already closed before the
call and its error display stays empty, because handleAiRequest catches the
rejection and only logs it to the console. -/
theorem C9_ai_error_path (st : AiEditorState) (msg : String) :
    (handleAction st (Except.error msg)).content = st.content ∧
    (handleAction st (Except.error msg)).assistantError = none ∧
    (handleAction st (Except.error msg)).assistantOpen = false ∧
    (handleAction st (Except.error msg)).savedRange = none := by
  simp [handleAction, handleAiRequest]

/-! ### C3: structural command placement -/

/-- stripTrigger never changes the number of blocks. -/
theorem stripTrigger_length (doc : List Blk) (i : ℕ) (query : String) :
    (stripTrigger doc i query).length = doc.length := by
  unfold stripTrigger
  cases h : doc.get? i with
  | none => rfl
  | some b =>
    by_cases hp : strStarts (strTrim (blkText b)) ("/" ++ query) = true
    · simp [hp]
    · simp [hp]

/-- C3: for every command kind that creates an element and every cursor block
index inside the document, after the trigger text is stripped the command
replaces the cursor block when its text is (now) empty, and otherwise inserts
the created element immediately after the cursor block. -/
theorem C3_command_placement (doc : List Blk) (i : ℕ) (query : String) (c : Command)
    (e : Blk) (hc : createdElement c = some e) (hi : i < doc.length) :
    (strTrim (blkText ((stripTrigger doc i query).getD i (Blk.txt ""))) = "" →
      applyCommandSelect doc i query c =
        (stripTrigger doc i query).take i ++ e :: (stripTrigger doc i query).drop (i + 1)) ∧
    (strTrim (blkText ((stripTrigger doc i query).getD i (Blk.txt ""))) ≠ "" →
      applyCommandSelect doc i query c =
        (stripTrigger doc i query).take (i + 1) ++ e ::
          (stripTrigger doc i query).drop (i + 1)) := by
  have hlen : (stripTrigger doc i query).length = doc.length := stripTrigger_length doc i query
  have hilt : i < (stripTrigger doc i query).length := hlen ▸ hi
  have hget : (stripTrigger doc i query).get? i =
      some ((stripTrigger doc i query).getD i (Blk.txt "")) := by
    rw [List.getD_eq_getElem?_getD, List.get?_eq_getElem?]
    cases hx : (stripTrigger doc i query)[i]? with
    | none =>
      rw [List.getElem?_eq_none_iff] at hx
      omega
    | some v => rfl
  constructor
  · intro hemp
    unfold applyCommandSelect
    rw [hc, hget]
    simp only [hemp, if_pos rfl]
    exact set_eq_take_cons_drop _ i e hilt
  · intro hne
    unfold applyCommandSelect
    rw [hc, hget]
    simp only [if_neg hne]
    have : (stripTrigger doc i query).insertIdx (i + 1) e =
        (stripTrigger doc i query).take (i + 1) ++ e ::
          (stripTrigger doc i query).drop (i + 1) :=
      insertIdx_eq_take_cons_drop _ (i + 1) e (by omega)
    rw [this]

/-- Witness for C3: the empty branch on a block holding only the trigger
text, and the non-empty branch on a block with real content, for a tag
command and a list command. -/
theorem C3_command_placement_witness :
    applyCommandSelect [Blk.txt "/h1"] 0 "h1" (Command.tag CmdTag.h1) =
      [Blk.tagEl CmdTag.h1] ∧
    applyCommandSelect [Blk.txt "hello"] 0 "" Command.bulletedList =
      [Blk.txt "hello", Blk.bulletedListEl] := by
  constructor
  · have h := (C3_command_placement [Blk.txt "/h1"] 0 "h1" (Command.tag CmdTag.h1)
      (Blk.tagEl CmdTag.h1) rfl (by decide)).1 (by decide)
    exact h.trans (by decide)
  · have h := (C3_command_placement [Blk.txt "hello"] 0 "" Command.bulletedList
      Blk.bulletedListEl rfl (by decide)).2 (by decide)
    exact h.trans (by decide)

end Nexus

namespace Nexus

/-! ### C7: the central node never moves -/

theorem pres_refl (a : LNode) : Pres a a :=
  ⟨rfl, rfl, rfl, rfl, rfl, rfl, rfl, fun _ => ⟨rfl, rfl⟩⟩

theorem pres_trans {a b c : LNode} (h1 : Pres a b) (h2 : Pres b c) : Pres a c := by
  obtain ⟨i1, l1, w1, h1', v1, p1, f1, x1⟩ := h1
  obtain ⟨i2, l2, w2, h2', v2, p2, f2, x2⟩ := h2
  refine ⟨i2.trans i1, l2.trans l1, w2.trans w1, h2'.trans h1', v2.trans v1,
    p2.trans p1, f2.trans f1, ?_⟩
  intro hf
  obtain ⟨hx1, hy1⟩ := x1 hf
  obtain ⟨hx2, hy2⟩ := x2 (f1.trans hf)
  exact ⟨hx2.trans hx1, hy2.trans hy1⟩

theorem presL_refl (ns : List LNode) : PresL ns ns :=
  ⟨rfl, fun _ => pres_refl _⟩

theorem presL_trans {ns₁ ns₂ ns₃ : List LNode} (h1 : PresL ns₁ ns₂) (h2 : PresL ns₂ ns₃) :
    PresL ns₁ ns₃ :=
  ⟨h2.1.trans h1.1, fun i => pres_trans (h1.2 i) (h2.2 i)⟩

/-- Setting index i to a node that keeps every non-positional field of the
current entry, when the current entry is not fixed, is shape preserving. -/
theorem presL_set (ns : List LNode) (i : ℕ) (v : LNode)
    (hid : v.id = (ns.getD i dummyNode).id) (hlb : v.label = (ns.getD i dummyNode).label)
    (hw : v.width = (ns.getD i dummyNode).width) (hh : v.height = (ns.getD i dummyNode).height)
    (hlv : v.level = (ns.getD i dummyNode).level)
    (hp : v.parentId = (ns.getD i dummyNode).parentId)
    (hf : v.isFixed = (ns.getD i dummyNode).isFixed)
    (hnf : (ns.getD i dummyNode).isFixed = false) :
    PresL ns (ns.set i v) := by
  refine ⟨by simp, fun j => ?_⟩
  by_cases hij : j = i
  · subst hij
    by_cases hjl : j < ns.length
    · have : (ns.set j v).getD j dummyNode = v := by
        rw [List.getD_eq_getElem?_getD, List.getElem?_set_self (by simpa using hjl)]
        rfl
      rw [this]
      exact ⟨hid, hlb, hw, hh, hlv, hp, hf, fun hfix => absurd (hnf ▸ hfix) (by simp)⟩
    · have : ns.set j v = ns := List.set_eq_of_length_le (by omega)
      rw [this]
      exact pres_refl _
  · have : (ns.set i v).getD j dummyNode = ns.getD j dummyNode := by
      rw [List.getD_eq_getElem?_getD, List.getD_eq_getElem?_getD,
        List.getElem?_set_ne (by omega)]
    rw [this]
    exact pres_refl _

/-- Moving one node is shape preserving. -/
theorem presL_moveNode (ns : List LNode) (i : ℕ) (nx ny : ℝ) :
    PresL ns (moveNode ns i nx ny) := by
  unfold moveNode
  by_cases hfix : (ns.getD i dummyNode).isFixed = true
  · simp only [hfix, if_pos]
    exact presL_refl ns
  · rw [if_neg hfix]
    exact presL_set ns i _ rfl rfl rfl rfl rfl rfl rfl (by simpa using hfix)

/-- One repulsion pair update is shape preserving. -/
theorem presL_repulsePair (ns : List LNode) (j k : ℕ) : PresL ns (repulsePair ns j k) := by
  unfold repulsePair
  dsimp only
  split <;> split <;>
    first
      | exact presL_trans (presL_moveNode _ _ _ _) (presL_moveNode _ _ _ _)
      | exact presL_refl ns

/-- One attraction update is shape preserving. -/
theorem presL_attractAt (ns : List LNode) (i : ℕ) : PresL ns (attractAt ns i) := by
  unfold attractAt
  dsimp only
  split
  · exact presL_refl ns
  · split
    · exact presL_refl ns
    · split
      · exact presL_moveNode _ _ _ _
      · exact presL_refl ns

theorem presL_foldl {α : Type _} (f : List LNode → α → List LNode)
    (hf : ∀ s a, PresL s (f s a)) (l : List α) (s : List LNode) :
    PresL s (l.foldl f s) := by
  induction l generalizing s with
  | nil => exact presL_refl s
  | cons a l ih => exact presL_trans (hf s a) (ih (f s a))

theorem presL_repulsionPass (ns : List LNode) : PresL ns (repulsionPass ns) := by
  unfold repulsionPass
  apply presL_foldl
  intro s p
  exact presL_repulsePair s p.1 p.2

theorem presL_attractionPass (ns : List LNode) : PresL ns (attractionPass ns) := by
  unfold attractionPass
  apply presL_foldl
  intro s i
  exact presL_attractAt s i

theorem presL_relaxStep (ns : List LNode) : PresL ns (relaxStep ns) :=
  presL_trans (presL_repulsionPass ns) (presL_attractionPass (repulsionPass ns))

theorem presL_iterate (k : ℕ) (ns : List LNode) : PresL ns (relaxStep^[k] ns) := by
  induction k with
  | zero => exact presL_refl ns
  | succ n ih =>
    rw [Function.iterate_succ_apply']
    exact presL_trans ih (presL_relaxStep _)

end Nexus

namespace Nexus

/-- Every seeded child node has a cleared fixed flag. -/
theorem seedChildList_unfixed (pid : String) (n : ℕ) (cs : List MChild) :
    ∀ (prev : LNode) (j : ℕ) (nd : LNode), nd ∈ seedChildList prev pid n j cs →
      nd.isFixed = false := by
  induction cs with
  | nil =>
    intro prev j nd h
    simp [seedChildList] at h
  | cons c cs ih =>
    intro prev j nd h
    simp only [seedChildList, List.mem_cons] at h
    rcases h with rfl | h
    · rfl
    · exact ih _ _ nd h

/-- The first seeded node is the central node. -/
theorem seedNodes_head (d : MindMapData) :
    (seedNodes d).getD 0 dummyNode = centralNode d := by
  simp [seedNodes]

/-- Every seeded node other than the central one has a cleared fixed flag. -/
theorem seedNodes_tail_unfixed (d : MindMapData) :
    ∀ i : ℕ, 1 ≤ i → i < (seedNodes d).length →
      ((seedNodes d).getD i dummyNode).isFixed = false := by
  intro i h1 hlen
  obtain ⟨m, rfl⟩ : ∃ m, i = m + 1 := ⟨i - 1, by omega⟩
  have hrest : (seedNodes d).getD (m + 1) dummyNode =
      (d.nodes.enum.flatMap (fun p =>
        mainNode p.1 d.nodes.length p.2 ::
          seedChildList (mainNode p.1 d.nodes.length p.2) p.2.id p.2.children.length 0
            p.2.children)).getD m dummyNode := by
    simp [seedNodes]
  have hmlen : m < (d.nodes.enum.flatMap (fun p =>
      mainNode p.1 d.nodes.length p.2 ::
        seedChildList (mainNode p.1 d.nodes.length p.2) p.2.id p.2.children.length 0
          p.2.children)).length := by
    simp only [seedNodes, List.length_cons] at hlen
    omega
  rw [hrest, List.getD_eq_getElem _ _ hmlen]
  have hmem := List.getElem_mem hmlen
  rw [List.mem_flatMap] at hmem
  obtain ⟨p, _, hin⟩ := hmem
  rcases List.mem_cons.mp hin with heq | hin
  · rw [heq]
    rfl
  · exact seedChildList_unfixed _ _ _ _ _ _ hin

/-- C7: after seeding and after every number of relaxation iterations (in
particular each of the 150 the layout runs), the node at index 0 is the
central node, still fixed, still at the canvas center (500, 500); every
other node is unfixed; and the final layout keeps the central node at the
center. -/
theorem C7_central_fixed (d : MindMapData) (k : ℕ) :
    ((relaxStep^[k] (seedNodes d)).getD 0 dummyNode).id = "central" ∧
    ((relaxStep^[k] (seedNodes d)).getD 0 dummyNode).isFixed = true ∧
    ((relaxStep^[k] (seedNodes d)).getD 0 dummyNode).x = 500 ∧
    ((relaxStep^[k] (seedNodes d)).getD 0 dummyNode).y = 500 ∧
    (∀ i : ℕ, 1 ≤ i → i < (relaxStep^[k] (seedNodes d)).length →
      ((relaxStep^[k] (seedNodes d)).getD i dummyNode).isFixed = false) ∧
    ((calculateLayout d).getD 0 dummyNode).x = 500 ∧
    ((calculateLayout d).getD 0 dummyNode).y = 500 := by
  have hfix : (centralNode d).isFixed = true := rfl
  have hx : (centralNode d).x = 500 := rfl
  have hy : (centralNode d).y = 500 := rfl
  have hid : (centralNode d).id = "central" := rfl
  have main : ∀ k : ℕ,
      ((relaxStep^[k] (seedNodes d)).getD 0 dummyNode).id = "central" ∧
      ((relaxStep^[k] (seedNodes d)).getD 0 dummyNode).isFixed = true ∧
      ((relaxStep^[k] (seedNodes d)).getD 0 dummyNode).x = 500 ∧
      ((relaxStep^[k] (seedNodes d)).getD 0 dummyNode).y = 500 := by
    intro k
    have hp := (presL_iterate k (seedNodes d)).2 0
    rw [seedNodes_head] at hp
    obtain ⟨pid, _, _, _, _, _, pfix, ppos⟩ := hp
    obtain ⟨px, py⟩ := ppos hfix
    exact ⟨pid.trans hid, pfix.trans hfix, px.trans hx, py.trans hy⟩
  refine ⟨(main k).1, (main k).2.1, (main k).2.2.1, (main k).2.2.2, ?_, ?_, ?_⟩
  · intro i h1 hlen
    have hp := presL_iterate k (seedNodes d)
    have hfi := (hp.2 i).2.2.2.2.2.2.1
    rw [hfi]
    exact seedNodes_tail_unfixed d i h1 (hp.1 ▸ hlen)
  · exact (main 150).2.2.1
  · exact (main 150).2.2.2

/-- Witness for C7 on the concrete graph after the full 150 iterations, plus
the only-central-fixed clause at index 1. -/
theorem C7_central_fixed_witness :
    ((calculateLayout exGraph).getD 0 dummyNode).x = 500 ∧
    ((relaxStep^[150] (seedNodes exGraph)).getD 1 dummyNode).isFixed = false := by
  refine ⟨(C7_central_fixed exGraph 0).2.2.2.2.2.1, ?_⟩
  have hl : (relaxStep^[150] (seedNodes exGraph)).length = 4 := by
    rw [(presL_iterate 150 (seedNodes exGraph)).1]
    rfl
  exact (C7_central_fixed exGraph 150).2.2.2.2.1 1 (by norm_num) (by rw [hl]; norm_num)

end Nexus

namespace Nexus

/-! ### C1: child seeding geometry -/

/-- Each seeded child sits at distance exactly CHILD_RADIUS from the node
seeded immediately before it. -/
theorem childNode_dist_prev (prev : LNode) (c : MChild) (pid : String) (n j : ℕ) :
    Real.sqrt (sqDist ((childNode prev c pid n j).x, (childNode prev c pid n j).y)
      (prev.x, prev.y)) = CHILD_RADIUS := by
  have h : sqDist ((childNode prev c pid n j).x, (childNode prev c pid n j).y)
      (prev.x, prev.y) = CHILD_RADIUS ^ 2 := by
    simp only [childNode, sqDist]
    have hs := Real.sin_sq_add_cos_sq (childAngle prev n j)
    unfold CHILD_RADIUS
    nlinarith [hs]
  rw [h]
  exact Real.sqrt_sq (by norm_num [CHILD_RADIUS])

/-- C1 amended: in the seeding chain of one main topic's children (list
prev :: children, prev being the seeded main topic), every child is seeded at
distance exactly CHILD_RADIUS = 100 from the node seeded immediately before
it: the main topic for the first child, the previous child for the others. -/
theorem C1_amended_child_chain (prev : LNode) (pid : String) (n j : ℕ)
    (cs : List MChild) (k : ℕ) (hk : k < cs.length) :
    Real.sqrt (sqDist
      (((prev :: seedChildList prev pid n j cs).getD (k + 1) dummyNode).x,
       ((prev :: seedChildList prev pid n j cs).getD (k + 1) dummyNode).y)
      (((prev :: seedChildList prev pid n j cs).getD k dummyNode).x,
       ((prev :: seedChildList prev pid n j cs).getD k dummyNode).y)) = CHILD_RADIUS := by
  induction cs generalizing prev j k with
  | nil => simp at hk
  | cons c cs ih =>
    cases k with
    | zero =>
      simp only [seedChildList, List.getD_cons_succ, List.getD_cons_zero]
      exact childNode_dist_prev prev c pid n j
    | succ m =>
      have hm : m < cs.length := by simpa using hk
      have := ih (childNode prev c pid n j) (j + 1) m hm
      simpa [seedChildList] using this

/-- Witness for C1 amended: a singleton child list at a concrete previous
node. -/
theorem C1_amended_child_chain_witness :
    Real.sqrt (sqDist
      (((dummyNode :: seedChildList dummyNode "m" 1 0 [⟨"a", "a"⟩]).getD 1 dummyNode).x,
       ((dummyNode :: seedChildList dummyNode "m" 1 0 [⟨"a", "a"⟩]).getD 1 dummyNode).y)
      (((dummyNode :: seedChildList dummyNode "m" 1 0 [⟨"a", "a"⟩]).getD 0 dummyNode).x,
       ((dummyNode :: seedChildList dummyNode "m" 1 0 [⟨"a", "a"⟩]).getD 0 dummyNode).y)) =
      CHILD_RADIUS :=
  C1_amended_child_chain dummyNode "m" 1 0 [⟨"a", "a"⟩] 0 (by norm_num)

end Nexus

namespace Nexus

set_option maxHeartbeats 1000000 in
/-- C1 counterexample: in the concrete graph with one main topic ("m" at
seeded position (800, 500)) and two children, the second child's seeded
distance from its parent's seeded position is strictly greater than
CHILD_RADIUS (the child is seeded relative to the previously pushed node,
the first child, not relative to the main topic), refuting the claim that
every child is seeded on the circle of radius 100 around its main topic. -/
theorem C1_counterexample :
    Real.sqrt (sqDist (seededPos exGraph 3) (seededPos exGraph 1)) ≠ CHILD_RADIUS := by
  set m0 : MNode := ⟨"m", "m", [⟨"a", "a"⟩, ⟨"b", "b"⟩]⟩ with hm0
  set mn : LNode := mainNode 0 1 m0 with hmn
  set c0 : LNode := childNode mn ⟨"a", "a"⟩ "m" 2 0 with hc0
  set c1 : LNode := childNode c0 ⟨"b", "b"⟩ "m" 2 1 with hc1
  have hlist : seedNodes exGraph = [centralNode exGraph, mn, c0, c1] := rfl
  have hp3 : seededPos exGraph 3 = (c1.x, c1.y) := by
    unfold seededPos
    rw [hlist]
    simp only [List.getD_cons_succ, List.getD_cons_zero]
  have hp1 : seededPos exGraph 1 = (mn.x, mn.y) := by
    unfold seededPos
    rw [hlist]
    simp only [List.getD_cons_succ, List.getD_cons_zero]
  -- coordinates of the seeded main node
  have hmnx : mn.x = 800 := by
    rw [hmn]
    simp only [mainNode, CENTER_X, MAIN_RADIUS]
    norm_num [Real.cos_zero]
  have hmny : mn.y = 500 := by
    rw [hmn]
    simp only [mainNode, CENTER_Y, MAIN_RADIUS]
    norm_num [Real.sin_zero]
  -- angle of the first child
  have h1 : mn.x - CENTER_X = 300 := by
    rw [hmnx]
    simp only [CENTER_X]
    norm_num
  have h2 : mn.y - CENTER_Y = 0 := by
    rw [hmny]
    simp only [CENTER_Y]
    norm_num
  have hangle0 : childAngle mn 2 0 = -(1/4 : ℝ) := by
    unfold childAngle
    rw [h1, h2]
    unfold atan2
    rw [if_pos (by norm_num : (0:ℝ) < 300)]
    norm_num [Real.arctan_zero]
  -- coordinates of the first child
  have hc0x : c0.x = 800 + 100 * Real.cos (1/4) := by
    rw [hc0]
    simp only [childNode, CHILD_RADIUS]
    rw [hangle0, hmnx, Real.cos_neg]
  have hc0y : c0.y = 500 - 100 * Real.sin (1/4) := by
    rw [hc0]
    simp only [childNode, CHILD_RADIUS]
    rw [hangle0, hmny, Real.sin_neg]
    ring
  -- angle of the second child
  have h3 : c0.x - CENTER_X = 300 + 100 * Real.cos (1/4) := by
    rw [hc0x]
    simp only [CENTER_X]
    ring
  have h4 : c0.y - CENTER_Y = -(100 * Real.sin (1/4)) := by
    rw [hc0y]
    simp only [CENTER_Y]
    ring
  have hden : (0:ℝ) < 300 + 100 * Real.cos (1/4) := by
    nlinarith [Real.neg_one_le_cos (1/4 : ℝ)]
  set t : ℝ := -(100 * Real.sin (1/4)) / (300 + 100 * Real.cos (1/4)) with ht
  have hangle1 : childAngle c0 2 1 = Real.arctan t + 1/4 := by
    unfold childAngle
    rw [h3, h4]
    unfold atan2
    rw [if_pos hden]
    norm_num
  -- squared distance of the second child from the seeded main topic
  have e1 : c1.x - mn.x = 100 * Real.cos (1/4) + 100 * Real.cos (Real.arctan t + 1/4) := by
    rw [hc1]
    simp only [childNode, CHILD_RADIUS]
    rw [hangle1, hc0x, hmnx]
    ring
  have e2 : c1.y - mn.y = 100 * Real.sin (Real.arctan t + 1/4) - 100 * Real.sin (1/4) := by
    rw [hc1]
    simp only [childNode, CHILD_RADIUS]
    rw [hangle1, hc0y, hmny]
    ring
  have hcadd : Real.cos (Real.arctan t + 1/2) =
      Real.cos (Real.arctan t + 1/4) * Real.cos (1/4) -
        Real.sin (Real.arctan t + 1/4) * Real.sin (1/4) := by
    have h : Real.arctan t + 1/2 = (Real.arctan t + 1/4) + 1/4 := by ring
    rw [h, Real.cos_add]
  have key : sqDist (seededPos exGraph 3) (seededPos exGraph 1) =
      10000 * (2 + 2 * Real.cos (Real.arctan t + 1/2)) := by
    rw [hp3, hp1]
    dsimp only [sqDist]
    rw [e1, e2, hcadd]
    linear_combination (10000 : ℝ) * Real.sin_sq_add_cos_sq (Real.arctan t + 1/4) +
      (10000 : ℝ) * Real.sin_sq_add_cos_sq ((1 : ℝ)/4)
  -- the cosine is positive, so the distance exceeds 100
  have hsin14 : (0:ℝ) ≤ Real.sin (1/4) := by
    apply Real.sin_nonneg_of_nonneg_of_le_pi
    · norm_num
    · nlinarith [Real.pi_gt_three]
  have htle : t ≤ 0 := by
    rw [ht]
    apply div_nonpos_of_nonpos_of_nonneg
    · nlinarith
    · exact hden.le
  have hu1 : Real.arctan t ≤ 0 := by
    have h := Real.arctan_strictMono.monotone htle
    simpa [Real.arctan_zero] using h
  have hu2 : -(Real.pi/2) < Real.arctan t := Real.neg_pi_div_two_lt_arctan t
  have hcospos : 0 < Real.cos (Real.arctan t + 1/2) := by
    apply Real.cos_pos_of_mem_Ioo
    refine Set.mem_Ioo.mpr ⟨by nlinarith [Real.pi_gt_three], by nlinarith [Real.pi_gt_three]⟩
  have hgt : (100:ℝ) < Real.sqrt (sqDist (seededPos exGraph 3) (seededPos exGraph 1)) := by
    rw [key]
    rw [Real.lt_sqrt (by norm_num : (0:ℝ) ≤ 100)]
    nlinarith [hcospos]
  intro heq
  rw [heq] at hgt
  simp only [CHILD_RADIUS] at hgt
  exact absurd hgt (lt_irrefl _)

end Nexus

namespace Nexus.Markdown

/-! ### C2: round-trip lemmas for the markup converter model -/

theorem splitOnChar_ne_nil (c : Char) (l : Line) : splitOnChar c l ≠ [] := by
  induction l with
  | nil => simp [splitOnChar]
  | cons a as ih =>
    unfold splitOnChar
    by_cases h : a = c
    · simp [h]
    · rw [if_neg h]
      cases hs : splitOnChar c as with
      | nil => simp
      | cons b bs => simp

theorem splitOnChar_cons_self (c : Char) (l : Line) :
    splitOnChar c (c :: l) = [] :: splitOnChar c l := by
  simp [splitOnChar]

theorem splitOnChar_exists_cons (c : Char) (l : Line) :
    ∃ b bs, splitOnChar c l = b :: bs := by
  cases hs : splitOnChar c l with
  | nil => exact absurd hs (splitOnChar_ne_nil c l)
  | cons b bs => exact ⟨b, bs, rfl⟩

theorem splitOnChar_append_cons (c : Char) (xs ys : Line) (h : c ∉ xs) :
    splitOnChar c (xs ++ c :: ys) = xs :: splitOnChar c ys := by
  induction xs with
  | nil => simp [splitOnChar_cons_self]
  | cons a as ih =>
    have ha : a ≠ c := by
      rintro rfl
      exact h (List.mem_cons_self a as)
    have h' : c ∉ as := fun hc => h (List.mem_cons_of_mem a hc)
    rw [List.cons_append, splitOnChar, if_neg ha, ih h']

theorem splitOnChar_concat_self (c : Char) (xs : Line) :
    splitOnChar c (xs ++ [c]) = splitOnChar c xs ++ [[]] := by
  induction xs with
  | nil => simp [splitOnChar]
  | cons a as ih =>
    by_cases h : a = c
    · subst h
      rw [List.cons_append, splitOnChar_cons_self, splitOnChar_cons_self, ih]
      rfl
    · obtain ⟨b, bs, hbs⟩ := splitOnChar_exists_cons c as
      rw [List.cons_append, splitOnChar, if_neg h, ih, hbs,
        splitOnChar, if_neg h, hbs]
      simp

theorem not_mem_of_mem_splitOnChar (c : Char) (l : Line) :
    ∀ x ∈ splitOnChar c l, c ∉ x := by
  induction l with
  | nil =>
    intro x hx
    simp only [splitOnChar, List.mem_singleton] at hx
    subst hx
    simp
  | cons a as ih =>
    intro x hx
    by_cases h : a = c
    · subst h
      rw [splitOnChar_cons_self] at hx
      rcases List.mem_cons.mp hx with rfl | hx
      · simp
      · exact ih x hx
    · obtain ⟨b, bs, hbs⟩ := splitOnChar_exists_cons c as
      rw [splitOnChar, if_neg h, hbs] at hx
      have hb : c ∉ b := ih b (hbs ▸ List.mem_cons_self b bs)
      rcases List.mem_cons.mp hx with rfl | hx
      · intro hc
        rcases List.mem_cons.mp hc with hce | hc
        · exact h hce.symm
        · exact hb hc
      · exact ih x (hbs ▸ List.mem_cons_of_mem b hx)

theorem splitOnChar_joinCells (cs : List Line) (ys : Line) :
    (∀ x ∈ cs, '|' ∉ x) → cs ≠ [] →
      splitOnChar '|' (joinCells cs ++ '|' :: ys) = cs ++ splitOnChar '|' ys := by
  induction cs with
  | nil => intro _ hne; cases hne rfl
  | cons x cs ih =>
    intro h _
    cases cs with
    | nil =>
      simp only [joinCells]
      rw [splitOnChar_append_cons '|' x ys (h x (List.mem_cons_self x []))]
      rfl
    | cons y rest =>
      have hx : '|' ∉ x := h x (List.mem_cons_self x (y :: rest))
      have h' : ∀ z ∈ y :: rest, '|' ∉ z := fun z hz => h z (List.mem_cons_of_mem x hz)
      have hassoc : joinCells (x :: y :: rest) ++ '|' :: ys =
          x ++ '|' :: (joinCells (y :: rest) ++ '|' :: ys) := by
        rw [joinCells]
        simp
      rw [hassoc, splitOnChar_append_cons '|' x _ hx, ih h' (List.cons_ne_nil y rest)]
      rfl

end Nexus.Markdown

namespace Nexus.Markdown

theorem classify_heading (lvl : ℕ) (t : Line) (h1 : 1 ≤ lvl) (h6 : lvl ≤ 6) :
    classifyLine (List.replicate lvl '#' ++ ' ' :: t) = MBlock.heading lvl t := by
  interval_cases lvl <;> simp [classifyLine, List.isPrefixOf, List.replicate]

theorem classify_check (d : Bool) (t : Line) :
    classifyLine ('-' :: ' ' :: '[' :: (if d then 'x' else ' ') :: ']' :: ' ' :: t) =
      MBlock.check d t := by
  cases d <;> simp [classifyLine, List.isPrefixOf]

theorem classify_bullet (t : Line) (h1 : ¬ (['[', 'x', ']', ' '].isPrefixOf t))
    (h2 : ¬ (['[', ' ', ']', ' '].isPrefixOf t)) :
    classifyLine ('-' :: ' ' :: t) = MBlock.bullet t := by
  simp [classifyLine, List.isPrefixOf, h1, h2]

theorem classify_quote (t : Line) :
    classifyLine ('>' :: ' ' :: t) = MBlock.quote t := by
  simp [classifyLine, List.isPrefixOf]

theorem classify_table (cs : List Line) (hne : cs ≠ []) (h : ∀ x ∈ cs, '|' ∉ x) :
    classifyLine (('|' :: joinCells cs) ++ ['|']) = MBlock.tableRow cs := by
  have hsplit : splitOnChar '|' ('|' :: (joinCells cs ++ ['|'])) = [] :: (cs ++ [[]]) := by
    rw [splitOnChar_cons_self, splitOnChar_joinCells cs ([] : Line) h hne]
    simp [splitOnChar]
  have hlast : ('|' :: (joinCells cs ++ ['|'])).getLast? = some '|' := by
    rw [← List.cons_append]
    exact List.getLast?_concat _
  simp [classifyLine, List.isPrefixOf, hlast, hsplit, List.dropLast_concat]

end Nexus.Markdown

namespace Nexus.Markdown

theorem cells_of_table_line (l : Line) (hh : l.head? = some '|')
    (hlast : l.getLast? = some '|') (hlen : 2 ≤ l.length) :
    ((splitOnChar '|' l).drop 1).dropLast ≠ [] ∧
      ∀ x ∈ ((splitOnChar '|' l).drop 1).dropLast, '|' ∉ x := by
  constructor
  · obtain ⟨l', rfl⟩ : ∃ l', l = '|' :: l' := by
      cases l with
      | nil => simp at hh
      | cons a l' =>
        simp only [List.head?_cons, Option.some_inj] at hh
        exact ⟨l', by rw [hh]⟩
    have hne' : l' ≠ [] := by
      intro he
      subst he
      simp at hlen
    obtain ⟨init, hinit⟩ : ∃ init, l' = init ++ ['|'] := by
      apply List.getLast?_eq_some_iff.mp
      cases l' with
      | nil => exact absurd rfl hne'
      | cons b l'' => rw [← hlast, List.getLast?_cons_cons]
    rw [splitOnChar_cons_self, hinit, splitOnChar_concat_self]
    simp only [List.drop_succ_cons, List.drop_zero, List.dropLast_concat]
    exact splitOnChar_ne_nil '|' init
  · intro x hx
    have hx1 : x ∈ (splitOnChar '|' l).drop 1 := (List.dropLast_sublist _).mem hx
    have hx2 : x ∈ splitOnChar '|' l := (List.drop_sublist _ _).mem hx1
    exact not_mem_of_mem_splitOnChar '|' l x hx2

theorem classifyLine_para_of_neg (l : Line)
    (h1 : ¬ (['#', '#', '#', '#', '#', '#', ' '].isPrefixOf l = true))
    (h2 : ¬ (['#', '#', '#', '#', '#', ' '].isPrefixOf l = true))
    (h3 : ¬ (['#', '#', '#', '#', ' '].isPrefixOf l = true))
    (h4 : ¬ (['#', '#', '#', ' '].isPrefixOf l = true))
    (h5 : ¬ (['#', '#', ' '].isPrefixOf l = true))
    (h6 : ¬ (['#', ' '].isPrefixOf l = true))
    (h7 : ¬ (['-', ' ', '[', 'x', ']', ' '].isPrefixOf l = true))
    (h8 : ¬ (['-', ' ', '[', ' ', ']', ' '].isPrefixOf l = true))
    (h9 : ¬ (['-', ' '].isPrefixOf l = true))
    (h10 : ¬ (['>', ' '].isPrefixOf l = true))
    (h11 : ¬ (l.head? = some '|' ∧ l.getLast? = some '|' ∧ 2 ≤ l.length)) :
    classifyLine l = MBlock.para l := by
  unfold classifyLine
  rw [if_neg h1, if_neg h2, if_neg h3, if_neg h4, if_neg h5, if_neg h6, if_neg h7,
    if_neg h8, if_neg h9, if_neg h10, if_neg h11]

theorem wf_classifyLine (l : Line) (hl : l ≠ fenceLine) : WfB (classifyLine l) := by
  by_cases h1 : ['#', '#', '#', '#', '#', '#', ' '].isPrefixOf l = true
  · unfold classifyLine
    rw [if_pos h1]
    exact ⟨by norm_num, by norm_num⟩
  by_cases h2 : ['#', '#', '#', '#', '#', ' '].isPrefixOf l = true
  · unfold classifyLine
    rw [if_neg h1, if_pos h2]
    exact ⟨by norm_num, by norm_num⟩
  by_cases h3 : ['#', '#', '#', '#', ' '].isPrefixOf l = true
  · unfold classifyLine
    rw [if_neg h1, if_neg h2, if_pos h3]
    exact ⟨by norm_num, by norm_num⟩
  by_cases h4 : ['#', '#', '#', ' '].isPrefixOf l = true
  · unfold classifyLine
    rw [if_neg h1, if_neg h2, if_neg h3, if_pos h4]
    exact ⟨by norm_num, by norm_num⟩
  by_cases h5 : ['#', '#', ' '].isPrefixOf l = true
  · unfold classifyLine
    rw [if_neg h1, if_neg h2, if_neg h3, if_neg h4, if_pos h5]
    exact ⟨by norm_num, by norm_num⟩
  by_cases h6 : ['#', ' '].isPrefixOf l = true
  · unfold classifyLine
    rw [if_neg h1, if_neg h2, if_neg h3, if_neg h4, if_neg h5, if_pos h6]
    exact ⟨by norm_num, by norm_num⟩
  by_cases h7 : ['-', ' ', '[', 'x', ']', ' '].isPrefixOf l = true
  · unfold classifyLine
    rw [if_neg h1, if_neg h2, if_neg h3, if_neg h4, if_neg h5, if_neg h6, if_pos h7]
    trivial
  by_cases h8 : ['-', ' ', '[', ' ', ']', ' '].isPrefixOf l = true
  · unfold classifyLine
    rw [if_neg h1, if_neg h2, if_neg h3, if_neg h4, if_neg h5, if_neg h6, if_neg h7,
      if_pos h8]
    trivial
  by_cases h9 : ['-', ' '].isPrefixOf l = true
  · unfold classifyLine
    rw [if_neg h1, if_neg h2, if_neg h3, if_neg h4, if_neg h5, if_neg h6, if_neg h7,
      if_neg h8, if_pos h9]
    obtain ⟨t, rfl⟩ : ∃ t, l = '-' :: ' ' :: t := by
      rw [List.isPrefixOf_iff_prefix] at h9
      obtain ⟨t, ht⟩ := h9
      exact ⟨t, ht.symm⟩
    refine ⟨fun hpre => h7 ?_, fun hpre => h8 ?_⟩ <;>
      simpa [List.isPrefixOf] using hpre
  by_cases h10 : ['>', ' '].isPrefixOf l = true
  · unfold classifyLine
    rw [if_neg h1, if_neg h2, if_neg h3, if_neg h4, if_neg h5, if_neg h6, if_neg h7,
      if_neg h8, if_neg h9, if_pos h10]
    trivial
  by_cases h11 : l.head? = some '|' ∧ l.getLast? = some '|' ∧ 2 ≤ l.length
  · unfold classifyLine
    rw [if_neg h1, if_neg h2, if_neg h3, if_neg h4, if_neg h5, if_neg h6, if_neg h7,
      if_neg h8, if_neg h9, if_neg h10, if_pos h11]
    exact cells_of_table_line l h11.1 h11.2.1 h11.2.2
  · rw [classifyLine_para_of_neg l h1 h2 h3 h4 h5 h6 h7 h8 h9 h10 h11]
    exact ⟨classifyLine_para_of_neg l h1 h2 h3 h4 h5 h6 h7 h8 h9 h10 h11, hl⟩

end Nexus.Markdown

namespace Nexus.Markdown

theorem takeWhile_append_fence (ls R : List Line) (h : ∀ x ∈ ls, x ≠ fenceLine) :
    (ls ++ fenceLine :: R).takeWhile (· ≠ fenceLine) = ls := by
  induction ls with
  | nil =>
    rw [List.nil_append, List.takeWhile_cons, if_neg]
    simp
  | cons a as ih =>
    have ha : a ≠ fenceLine := h a (List.mem_cons_self a as)
    rw [List.cons_append, List.takeWhile_cons, if_pos (decide_eq_true ha),
      ih (fun x hx => h x (List.mem_cons_of_mem a hx))]

theorem dropWhile_append_fence (ls R : List Line) (h : ∀ x ∈ ls, x ≠ fenceLine) :
    (ls ++ fenceLine :: R).dropWhile (· ≠ fenceLine) = fenceLine :: R := by
  induction ls with
  | nil =>
    rw [List.nil_append, List.dropWhile_cons, if_neg]
    simp
  | cons a as ih =>
    have ha : a ≠ fenceLine := h a (List.mem_cons_self a as)
    rw [List.cons_append, List.dropWhile_cons, if_pos (decide_eq_true ha),
      ih (fun x hx => h x (List.mem_cons_of_mem a hx))]

theorem parse_render (bs : List MBlock) :
    (∀ b ∈ bs, WfB b) → parseLines (renderDoc bs) = bs := by
  induction bs with
  | nil =>
    intro _
    show parseLines [] = []
    rw [parseLines]
  | cons b rest ih =>
    intro h
    have hb := h b (List.mem_cons_self b rest)
    have hr := ih (fun x hx => h x (List.mem_cons_of_mem b hx))
    have hhash : ('#' : Char) ≠ bq := by decide
    have hdash : ('-' : Char) ≠ bq := by decide
    have hgt : ('>' : Char) ≠ bq := by decide
    have hpipe : ('|' : Char) ≠ bq := by decide
    cases b with
    | heading lvl t =>
      obtain ⟨h1, h6⟩ := hb
      have hne : (List.replicate lvl '#' ++ ' ' :: t) ≠ fenceLine := by
        interval_cases lvl <;> simp [fenceLine, List.replicate, hhash]
      show parseLines ((List.replicate lvl '#' ++ ' ' :: t) :: renderDoc rest) = _
      rw [parseLines, if_neg hne, classify_heading lvl t h1 h6, hr]
    | bullet t =>
      obtain ⟨hb1, hb2⟩ := hb
      have hne : ('-' :: ' ' :: t) ≠ fenceLine := by simp [fenceLine, hdash]
      show parseLines (('-' :: ' ' :: t) :: renderDoc rest) = _
      rw [parseLines, if_neg hne, classify_bullet t hb1 hb2, hr]
    | check d t =>
      cases d with
      | true =>
        have hne : ('-' :: ' ' :: '[' :: 'x' :: ']' :: ' ' :: t) ≠ fenceLine := by
          simp [fenceLine, hdash]
        show parseLines (('-' :: ' ' :: '[' :: 'x' :: ']' :: ' ' :: t) :: renderDoc rest) = _
        have hc : classifyLine ('-' :: ' ' :: '[' :: 'x' :: ']' :: ' ' :: t) =
            MBlock.check true t := by simpa using classify_check true t
        rw [parseLines, if_neg hne, hc, hr]
      | false =>
        have hne : ('-' :: ' ' :: '[' :: ' ' :: ']' :: ' ' :: t) ≠ fenceLine := by
          simp [fenceLine, hdash]
        show parseLines (('-' :: ' ' :: '[' :: ' ' :: ']' :: ' ' :: t) :: renderDoc rest) = _
        have hc : classifyLine ('-' :: ' ' :: '[' :: ' ' :: ']' :: ' ' :: t) =
            MBlock.check false t := by simpa using classify_check false t
        rw [parseLines, if_neg hne, hc, hr]
    | quote t =>
      have hne : ('>' :: ' ' :: t) ≠ fenceLine := by simp [fenceLine, hgt]
      show parseLines (('>' :: ' ' :: t) :: renderDoc rest) = _
      rw [parseLines, if_neg hne, classify_quote t, hr]
    | codeBlock ls =>
      have hmem : ∀ x ∈ ls, x ≠ fenceLine := fun x hx he => hb (he ▸ hx)
      have hshape : renderDoc (MBlock.codeBlock ls :: rest) =
          fenceLine :: (ls ++ fenceLine :: renderDoc rest) := by
        show (fenceLine :: ls ++ [fenceLine]) ++ renderDoc rest = _
        simp
      rw [hshape, parseLines, if_pos rfl, takeWhile_append_fence ls _ hmem,
        dropWhile_append_fence ls _ hmem]
      simp only [List.drop_succ_cons, List.drop_zero]
      rw [hr]
    | tableRow cs =>
      obtain ⟨hne', hcells⟩ := hb
      have hne : (('|' :: joinCells cs) ++ ['|']) ≠ fenceLine := by
        rw [List.cons_append]
        simp [fenceLine, hpipe]
      show parseLines ((('|' :: joinCells cs) ++ ['|']) :: renderDoc rest) = _
      rw [parseLines, if_neg hne, classify_table cs hne' hcells, hr]
    | para t =>
      obtain ⟨hp, hne⟩ := hb
      show parseLines (t :: renderDoc rest) = _
      rw [parseLines, if_neg hne, hp, hr]

theorem wf_parse (ls : List Line) : ∀ b ∈ parseLines ls, WfB b := by
  induction ls using parseLines.induct
  case case1 =>
    intro b hb
    simp [parseLines] at hb
  case case2 rest ih =>
    intro b hb
    rw [parseLines, if_pos rfl] at hb
    rcases List.mem_cons.mp hb with rfl | hb
    · intro hmem
      have := List.mem_takeWhile_imp hmem
      simp at this
    · exact ih b hb
  case case3 l rest hfence ih =>
    intro b hb
    rw [parseLines, if_neg hfence] at hb
    rcases List.mem_cons.mp hb with rfl | hb
    · exact wf_classifyLine l hfence
    · exact ih b hb

/-- C2: one parse-render pass is a normal form.  For every markup text (its
list of lines), rendering its parse and then parsing and rendering again
yields the same markup: render(parse(render(parse(doc)))) =
render(parse(doc)), covering headings, bulleted lists, checklists in both
checked states, blockquotes, fenced code blocks and table rows. -/
theorem C2_roundtrip_idempotent (doc : List Line) :
    renderDoc (parseLines (renderDoc (parseLines doc))) = renderDoc (parseLines doc) := by
  rw [parse_render (parseLines doc) (wf_parse doc)]

end Nexus.Markdown
